import Mathlib

/-!
Verification development for the image-to-structured-data extraction
pipeline (receipt/document OCR + QR/barcode decoding).

The Python sources under `src/utils/` are shallowly embedded here:
pure text-processing functions become Lean functions on `String` /
`List Char`; functions whose behaviour depends on external libraries
(OpenCV, PIL, pyzbar, the stdlib `json` parser and `float` parser)
are parameterized by an explicit environment record supplying the
library results, and Python `try/except` blocks become `Except`
values or `Option` results threaded explicitly.  The regular
expressions of `extract_structured_data` are embedded via a small
backtracking matcher (`Rgx`) whose priority order follows Python's
`re` (leftmost match, greedy quantifiers, left-biased alternation,
non-overlapping `findall` scanning).

String primitives are implemented structurally over `List Char`
(rather than through `String.splitOn` and friends) so that every
function evaluates inside the kernel for `decide`/`rfl` witnesses.
-/

namespace PyStr

/-- Python `\s` over the ASCII range: space, tab, newline, carriage
return, vertical tab, form feed (`re` whitespace class). -/
def isSpaceChar (c : Char) : Bool :=
  c = ' ' || c = '\t' || c = '\n' || c = '\r' || c = '\x0b' || c = '\x0c'

/-- Python `\w` over the ASCII range: letters, digits and underscore. -/
def isWordChar (c : Char) : Bool :=
  c.isAlphanum || c = '_'

/-- Python `str.isdigit()`: true iff the string is nonempty and every
character is a digit. -/
def pyIsdigit (s : String) : Bool :=
  !s.isEmpty && s.toList.all Char.isDigit

/-- Python `len(s)` (code points). -/
def pyLen (s : String) : Nat :=
  s.toList.length

/-- Python `s[n:]` for nonnegative `n`. -/
def pyDrop (s : String) (n : Nat) : String :=
  String.mk (s.toList.drop n)

/-- Python `s[:n]` for nonnegative `n`. -/
def pyTake (s : String) (n : Nat) : String :=
  String.mk (s.toList.take n)

/-- Python `s.startswith(pre)`. -/
def pyStartsWith (s pre : String) : Bool :=
  pre.toList.isPrefixOf s.toList

/-- Python `s.lower()` over the ASCII range. -/
def pyLower (s : String) : String :=
  String.mk (s.toList.map Char.toLower)

/-- Splitting on a single-character separator, accumulator-based. -/
def splitOnCharAux (sep : Char) : List Char → List Char → List (List Char)
  | [], acc => [acc.reverse]
  | c :: cs, acc =>
    if c = sep then acc.reverse :: splitOnCharAux sep cs []
    else splitOnCharAux sep cs (c :: acc)

/-- Python `s.split(sep)` for a single-character separator: always a
list with one more element than the number of separator occurrences. -/
def pySplitChar (sep : Char) (s : String) : List String :=
  (splitOnCharAux sep s.toList []).map String.mk

/-- Split a character list at the first occurrence of `sep`, like
Python `s.split(sep, 1)` when `sep in s`; `none` when `sep` is absent. -/
def splitFirstAux (sep : Char) : List Char → Option (List Char × List Char)
  | [] => none
  | c :: cs =>
    if c = sep then some ([], cs)
    else match splitFirstAux sep cs with
      | none => none
      | some (a, b) => some (c :: a, b)

/-- String version of `splitFirstAux`: Python `s.split(sep, 1)`
combined with the `sep in s` membership test. -/
def splitFirst (sep : Char) (s : String) : Option (String × String) :=
  (splitFirstAux sep s.toList).map fun p => (String.mk p.1, String.mk p.2)

end PyStr

namespace OcrProcessor

open PyStr

/-- The character allowlist of the second `re.sub` in `clean_ocr_text`
(`src/utils/ocr_processor.py`, line 90): the punctuation characters of
the class, excluding the `\w` and `\s` sub-classes which are tested
separately. -/
def allowedPunct : List Char :=
  "-.,!@#$%^&*()_+=[]\x7b\x7d|;:,.<>?/~\x60\"".toList

/-- A character kept by the filtering `re.sub` of `clean_ocr_text`:
word characters, whitespace, or the punctuation allowlist. -/
def allowedChar (c : Char) : Bool :=
  isWordChar c || isSpaceChar c || allowedPunct.contains c

/-- Model of `re.sub(r'\s+', ' ', text)`: each maximal run of
whitespace characters is replaced by a single space.  The flag records
whether the previous character belonged to a whitespace run. -/
def collapseAux : Bool → List Char → List Char
  | _, [] => []
  | prevWs, c :: cs =>
    if isSpaceChar c then
      if prevWs then collapseAux true cs
      else ' ' :: collapseAux true cs
    else c :: collapseAux false cs

/-- Collapse whitespace runs to single spaces (first step of
`clean_ocr_text`). -/
def collapseWS (l : List Char) : List Char :=
  collapseAux false l

/-- Drop trailing whitespace characters (the right half of Python
`str.strip()`). -/
def dropTrail : List Char → List Char
  | [] => []
  | c :: cs =>
    if (dropTrail cs).isEmpty && isSpaceChar c then []
    else c :: dropTrail cs

/-- Python `str.strip()` over the ASCII whitespace set: drop leading
and trailing whitespace. -/
def stripL (l : List Char) : List Char :=
  dropTrail (l.dropWhile isSpaceChar)

/-- Model of `clean_ocr_text` (`src/utils/ocr_processor.py`, lines 79-104) on a
character list: empty stays empty; otherwise collapse whitespace runs,
strip characters outside the allowlist, and trim both ends.  The
confusion-`replacements` table defined afterwards in the source is
never applied to the text, so it does not appear in the result. -/
def cleanL (l : List Char) : List Char :=
  if l.isEmpty then []
  else stripL ((collapseWS l).filter allowedChar)

/-- Model of `clean_ocr_text` on `String`. -/
def clean_ocr_text (s : String) : String :=
  String.mk (cleanL s.toList)

/-- Every whitespace character of the list is a plain space. -/
def wsAllSpace (l : List Char) : Bool :=
  l.all fun c => !isSpaceChar c || c = ' '

/-- The list is empty or does not start with whitespace. -/
def headNotWS : List Char → Bool
  | [] => true
  | c :: _ => !isSpaceChar c

/-- No two adjacent characters of the list are both whitespace. -/
def noAdjWS : List Char → Bool
  | [] => true
  | c :: cs => (!isSpaceChar c || headNotWS cs) && noAdjWS cs

end OcrProcessor

namespace Rgx

/-- Regular-expression abstract syntax, covering the constructs used
by the patterns of `extract_structured_data`: single-character classes,
literal strings, concatenation, alternation, bounded/unbounded greedy
repetition, one capturing group, and the `\b` word boundary. -/
inductive RE where
  | cls : (Char → Bool) → RE
  | lit : List Char → RE
  | seq : RE → RE → RE
  | alt : RE → RE → RE
  | rep : RE → Nat → Option Nat → RE
  | grp : RE → RE
  | wb : RE

/-- Structural size used as part of the termination measure of the
matcher. -/
@[simp] def RE.size : RE → Nat
  | .cls _ => 1
  | .lit _ => 1
  | .seq a b => a.size + b.size + 1
  | .alt a b => a.size + b.size + 1
  | .rep r _ _ => r.size + 2
  | .grp r => r.size + 1
  | .wb => 1

/-- Character-class test under optional `re.IGNORECASE`. -/
def chMatch (icase : Bool) (f : Char → Bool) (c : Char) : Bool :=
  f c || (icase && (f c.toLower || f c.toUpper))

/-- Character equality under optional `re.IGNORECASE`. -/
def chEq (icase : Bool) (a b : Char) : Bool :=
  a == b || (icase && a.toLower == b.toLower)

/-- Consume a literal from the head of the input, tracking the
previous character for later `\b` tests. -/
def litConsume (icase : Bool) : List Char → Option Char → List Char →
    Option (Option Char × List Char)
  | [], p, s => some (p, s)
  | _ :: _, _, [] => none
  | a :: as, _, c :: cs =>
    if chEq icase a c then litConsume icase as (some c) cs else none

/-- Boundary test `\b`: true iff exactly one of the characters adjacent to the
current position is a word character. -/
def atBoundary (p : Option Char) (s : List Char) : Bool :=
  let pw := match p with | none => false | some c => PyStr.isWordChar c
  let nw := match s with | [] => false | c :: _ => PyStr.isWordChar c
  pw != nw

/-- A match outcome: the character immediately before the remaining
input, the remaining input, and captured group texts. -/
abbrev MRes := Option Char × List Char × List String

/-- All ways the regex can match a prefix of `s`, in the backtracking
priority order of Python `re`: the head of the returned list is the
preferred match.  A repetition is processed one iteration at a time,
mandatory iterations first, then greedy optional iterations that must
each consume input (Python's empty-repeat rule); the upper bound is
decremented as iterations are consumed.

The function is structurally recursive on the fuel `fu`, decremented
at every recursive call, so that it reduces inside the kernel; with
the over-approximating fuel chosen by `firstMatch`, the `fu = 0` base
case is unreachable. -/
def mRE (icase : Bool) : Nat → RE → Option Char → List Char → List MRes
  | 0, _, _, _ => []
  | _ + 1, .cls _, _, [] => []
  | _ + 1, .cls f, _, c :: cs =>
    if chMatch icase f c then [(some c, cs, [])] else []
  | _ + 1, .lit l, p, s =>
    match litConsume icase l p s with
    | none => []
    | some (p', s') => [(p', s', [])]
  | fu + 1, .seq a b, p, s =>
    (mRE icase fu a p s).flatMap fun r =>
      (mRE icase fu b r.1 r.2.1).map fun r' => (r'.1, r'.2.1, r.2.2 ++ r'.2.2)
  | fu + 1, .alt a b, p, s => mRE icase fu a p s ++ mRE icase fu b p s
  | fu + 1, .grp r, p, s =>
    (mRE icase fu r p s).map fun r' =>
      (r'.1, r'.2.1, r'.2.2 ++ [String.mk (s.take (s.length - r'.2.1.length))])
  | _ + 1, .wb, p, s => if atBoundary p s then [(p, s, [])] else []
  | fu + 1, .rep r 0 hi, p, s =>
    if hi = some 0 then [(p, s, [])]
    else
      ((mRE icase fu r p s).flatMap fun q =>
        if q.2.1.length < s.length then
          (mRE icase fu (.rep r 0 (hi.map (· - 1))) q.1 q.2.1).map fun q' =>
            (q'.1, q'.2.1, q.2.2 ++ q'.2.2)
        else []) ++ [(p, s, [])]
  | fu + 1, .rep r (lo + 1) hi, p, s =>
    (mRE icase fu r p s).flatMap fun q =>
      (mRE icase fu (.rep r lo (hi.map (· - 1))) q.1 q.2.1).map fun q' =>
        (q'.1, q'.2.1, q.2.2 ++ q'.2.2)

/-- Fuel bound for `mRE`: the recursion descends at most `size`-many
levels between repetition nodes, every chain of repetition iterations
has length at most `lo + s.length + 1` (optional iterations consume
input), the mandatory bounds `lo` of the embedded patterns are at most
4, and repetitions nest at most twice, so
`(n + 6) * (n + 6) * (size + 2)` strictly dominates the recursion
depth on every input of length `n`. -/
def fuelFor (r : RE) (n : Nat) : Nat :=
  (n + 6) * (n + 6) * (r.size + 2)

/-- The preferred match of the regex at the current position, if any. -/
def firstMatch (icase : Bool) (r : RE) (p : Option Char) (s : List Char) :
    Option MRes :=
  (mRE icase (fuelFor r s.length) r p s).head?

/-- Scanning loop of `re.findall`: try the position, record the full
match (or the single group when the pattern captures one), continue
after a nonempty match, otherwise advance one character. -/
def findallAux (icase : Bool) (r : RE) : Nat → Option Char → List Char → List String
  | 0, _, _ => []
  | k + 1, p, s =>
    match firstMatch icase r p s with
    | some (p', s', caps) =>
      let item := match caps with
        | [] => String.mk (s.take (s.length - s'.length))
        | g :: _ => g
      if s'.length < s.length then item :: findallAux icase r k p' s'
      else
        match s with
        | [] => [item]
        | c :: cs => item :: findallAux icase r k (some c) cs
    | none =>
      match s with
      | [] => []
      | c :: cs => findallAux icase r k (some c) cs

/-- Model of `re.findall(pattern, s)` (with `icase` for `re.IGNORECASE`). -/
def findall (icase : Bool) (r : RE) (s : String) : List String :=
  findallAux icase r (s.toList.length + 1) none s.toList

/-- Kleene star (greedy). -/
def star (r : RE) : RE := .rep r 0 none

/-- One-or-more (greedy). -/
def plus (r : RE) : RE := .rep r 1 none

/-- Zero-or-one (greedy). -/
def opt (r : RE) : RE := .rep r 0 (some 1)

/-- Bounded repetition `\x7bm,n\x7d`. -/
def reps (r : RE) (lo hi : Nat) : RE := .rep r lo (some hi)

/-- Lower-bounded repetition `\x7bm,\x7d`. -/
def repMin (r : RE) (lo : Nat) : RE := .rep r lo none

/-- A single literal character. -/
def chr (c : Char) : RE := .cls (fun x => x == c)

/-- Right-nested concatenation of a pattern list. -/
def seqs : List RE → RE
  | [] => .lit []
  | [r] => r
  | r :: rs => .seq r (seqs rs)

/-- Left-biased alternation of a pattern list. -/
def alts : List RE → RE
  | [] => .lit []
  | [r] => r
  | r :: rs => .alt r (alts rs)

end Rgx

namespace OcrProcessor

open Rgx PyStr

/-- Regex `\d`. -/
def dCls : RE := .cls Char.isDigit

/-- Regex `\s`. -/
def sCls : RE := .cls isSpaceChar

/-- Regex slash-or-dash class `[\x2f-]`. -/
def dateSep : RE := .cls fun c => c == '/' || c == '-'

/-- Regex `[-.]`. -/
def dashDot : RE := .cls fun c => c == '-' || c == '.'

/-- Regex `[A-Z0-9-]` as written (uppercase letters, digits, dash);
`re.IGNORECASE` widening happens in the matcher. -/
def invCls : RE := .cls fun c => ('A' ≤ c && c ≤ 'Z') || c.isDigit || c == '-'

/-- Regex `[\s#:]`. -/
def invSep : RE := .cls fun c => isSpaceChar c || c == '#' || c == ':'

/-- Regex `[A-Za-z0-9._%+-]` (email local part). -/
def emailLocalCls : RE := .cls fun c => c.isAlphanum || "._%+-".toList.contains c

/-- Regex `[A-Za-z0-9.-]` (email domain). -/
def emailDomCls : RE := .cls fun c => c.isAlphanum || c == '.' || c == '-'

/-- Regex `[A-Z|a-z]` (email TLD as written in the source: letters and
a literal bar). -/
def emailTldCls : RE := .cls fun c => c.isAlpha || c == '|'

/-- The `amount_patterns` of `extract_structured_data`, in source order:
`\$\s*\d+\.?\d*`, `\d+\.\d{2}\s*USD`, `USD\s*\d+\.?\d*`,
`\d{1,3}(?:,\d{3})*\.?\d*`. -/
def amount_patterns : List RE :=
  [ seqs [chr '$', star sCls, plus dCls, opt (chr '.'), star dCls],
    seqs [plus dCls, chr '.', reps dCls 2 2, star sCls, .lit "USD".toList],
    seqs [.lit "USD".toList, star sCls, plus dCls, opt (chr '.'), star dCls],
    seqs [reps dCls 1 3, star (seqs [chr ',', reps dCls 3 3]), opt (chr '.'), star dCls] ]

/-- The month-abbreviation alternation `(?:Jan|Feb|...|Dec)`. -/
def monthAlt : RE :=
  alts [.lit "Jan".toList, .lit "Feb".toList, .lit "Mar".toList, .lit "Apr".toList,
    .lit "May".toList, .lit "Jun".toList, .lit "Jul".toList, .lit "Aug".toList,
    .lit "Sep".toList, .lit "Oct".toList, .lit "Nov".toList, .lit "Dec".toList]

/-- The `date_patterns`, in source order: `\d{1,2}[\x2f-]\d{1,2}[\x2f-]\d{2,4}`,
`\d{2,4}[\x2f-]\d{1,2}[\x2f-]\d{1,2}`,
`\b\d{1,2}\s+(?:Jan|...|Dec)\s+\d{2,4}\b`. -/
def date_patterns : List RE :=
  [ seqs [reps dCls 1 2, dateSep, reps dCls 1 2, dateSep, reps dCls 2 4],
    seqs [reps dCls 2 4, dateSep, reps dCls 1 2, dateSep, reps dCls 1 2],
    seqs [.wb, reps dCls 1 2, plus sCls, monthAlt, plus sCls, reps dCls 2 4, .wb] ]

/-- The `email_pattern`: `\b[A-Za-z0-9._%+-]+@[A-Za-z0-9.-]+\.[A-Z|a-z]{2,}\b`. -/
def email_pattern : RE :=
  seqs [.wb, plus emailLocalCls, chr '@', plus emailDomCls, chr '.',
    repMin emailTldCls 2, .wb]

/-- The `phone_patterns`, in source order: `\b\d{3}[-.]?\d{3}[-.]?\d{4}\b`
and `\(\d{3}\)\s*\d{3}[-.]?\d{4}`. -/
def phone_patterns : List RE :=
  [ seqs [.wb, reps dCls 3 3, opt dashDot, reps dCls 3 3, opt dashDot,
      reps dCls 4 4, .wb],
    seqs [chr '(', reps dCls 3 3, chr ')', star sCls, reps dCls 3 3,
      opt dashDot, reps dCls 4 4] ]

/-- The `invoice_patterns`, in source order:
`(?:Invoice|INV|Receipt|RCP)[\s#:]*([A-Z0-9-]+)` and
`#\s*([A-Z0-9-]{3,})`. -/
def invoice_patterns : List RE :=
  [ seqs [alts [.lit "Invoice".toList, .lit "INV".toList, .lit "Receipt".toList,
      .lit "RCP".toList], star invSep, .grp (plus invCls)],
    seqs [chr '#', star sCls, .grp (repMin invCls 3)] ]

/-- The five named result sets of `extract_structured_data`. -/
structure StructuredData where
  amounts : List String
  dates : List String
  emails : List String
  phone_numbers : List String
  invoice_numbers : List String
deriving DecidableEq, Repr

/-- Model of `extract_structured_data` (`src/utils/ocr_processor.py`,
lines 106-172).  Amounts, dates and invoice numbers are matched with
`re.IGNORECASE`; emails and phone numbers without a flag.  The final
`list(set(...))` deduplication is modelled by `List.dedup` (Python's
set iteration order is unspecified, so only membership in the result
lists is meaningful). -/
def extract_structured_data (ocr_text : String) : StructuredData :=
  if ocr_text.isEmpty then ⟨[], [], [], [], []⟩
  else
    let amounts := amount_patterns.foldl (fun acc p => acc ++ findall true p ocr_text) []
    let dates := date_patterns.foldl (fun acc p => acc ++ findall true p ocr_text) []
    let emails := findall false email_pattern ocr_text
    let phones := phone_patterns.foldl (fun acc p => acc ++ findall false p ocr_text) []
    let invoices := invoice_patterns.foldl (fun acc p => acc ++ findall true p ocr_text) []
    ⟨amounts.dedup, dates.dedup, emails.dedup, phones.dedup, invoices.dedup⟩

end OcrProcessor

namespace CodeExtractor

open PyStr

/-- Values stored in the structured-interpretation dictionaries.
`pyfloat` and `pyjson` stand for a successfully parsed Python float /
JSON value, represented by the source text it was parsed from (the
claims only inspect presence, never the parsed value). -/
inductive PyVal where
  | str : String → PyVal
  | num : Nat → PyVal
  | bool : Bool → PyVal
  | pyfloat : String → PyVal
  | pyjson : String → PyVal
  | pair : Nat → Nat → PyVal
deriving DecidableEq, Repr

/-- A Python dict with string keys, as an insertion-ordered
association list with unique keys. -/
abbrev PyDict := List (String × PyVal)

/-- Python `d[k] = v`: replace in place if the key exists, else append. -/
def dictSet (d : PyDict) (k : String) (v : PyVal) : PyDict :=
  match d with
  | [] => [(k, v)]
  | (k', v') :: rest =>
    if k' = k then (k, v) :: rest else (k', v') :: dictSet rest k v

/-- Python `d.get(k)`. -/
def dictGet (d : PyDict) (k : String) : Option PyVal :=
  match d with
  | [] => none
  | (k', v) :: rest => if k' = k then some v else dictGet rest k

/-- Python `list(d.keys())`. -/
def dictKeys (d : PyDict) : List String :=
  d.map Prod.fst

/-- External-library oracles for `extract_qr_info`: whether
`json.loads` succeeds on a string, and whether `float()` succeeds. -/
structure PyEnv where
  jsonValid : String → Bool
  floatParses : String → Bool

/-- The `wifi_mapping` dict of `extract_qr_info` as a total function
(`.get(key, key)` with the four known keys). -/
def wifiMapping (k : String) : String :=
  if k = "T" then "security"
  else if k = "S" then "ssid"
  else if k = "P" then "password"
  else if k = "H" then "hidden"
  else k

/-- One iteration of the WiFi `;`-part loop of `extract_qr_info`. -/
def wifiStep (acc : PyDict) (part : String) : PyDict :=
  match splitFirst ':' part with
  | none => acc
  | some (key, value) =>
    if key = "T" || key = "S" || key = "P" || key = "H" then
      dictSet acc (wifiMapping key) (.str value)
    else acc

/-- One iteration of the vCard line loop of `extract_qr_info`. -/
def vcardStep (acc : PyDict) (line : String) : PyDict :=
  match splitFirst ':' line with
  | none => acc
  | some (key, value) => dictSet acc (pyLower key) (.str value)

/-- Model of `extract_qr_info` (`src/utils/code_extractor.py`, lines 173-243):
classify the payload by prefix and build the structured
interpretation dict.  Note that the WiFi branch splits the whole
payload (including the leading `WIFI:` prefix) on `;`, so the first
part's `split(':', 1)` key is `WIFI`. -/
def extract_qr_info (env : PyEnv) (qr_data : String) : PyDict :=
  let info : PyDict := [("content", .str qr_data), ("length", .num (pyLen qr_data))]
  if pyStartsWith (pyLower qr_data) "http://" || pyStartsWith (pyLower qr_data) "https://" then
    dictSet (dictSet info "type" (.str "url")) "url" (.str qr_data)
  else if pyStartsWith qr_data "WIFI:" then
    (pySplitChar ';' qr_data).foldl wifiStep (dictSet info "type" (.str "wifi"))
  else if pyStartsWith qr_data "BEGIN:VCARD" then
    (pySplitChar '\n' qr_data).foldl vcardStep (dictSet info "type" (.str "vcard"))
  else if pyStartsWith qr_data "mailto:" then
    dictSet (dictSet info "type" (.str "email")) "email" (.str (pyDrop qr_data 7))
  else if pyStartsWith qr_data "tel:" then
    dictSet (dictSet info "type" (.str "phone")) "phone" (.str (pyDrop qr_data 4))
  else if pyStartsWith qr_data "sms:" then
    dictSet (dictSet info "type" (.str "sms")) "phone" (.str (pyDrop qr_data 4))
  else if pyStartsWith qr_data "geo:" then
    match pySplitChar ',' (pyDrop qr_data 4) with
    | c0 :: _c1 :: _ =>
      if env.floatParses c0 then
        if env.floatParses _c1 then
          dictSet (dictSet (dictSet info "type" (.str "location"))
            "latitude" (.pyfloat c0)) "longitude" (.pyfloat _c1)
        else dictSet (dictSet info "type" (.str "location")) "latitude" (.pyfloat c0)
      else dictSet info "type" (.str "location")
    | _ => dictSet info "type" (.str "location")
  else
    if env.jsonValid qr_data then
      dictSet (dictSet info "type" (.str "json")) "json_data" (.pyjson qr_data)
    else dictSet info "type" (.str "text")

/-- Model of `extract_barcode_info` (`src/utils/code_extractor.py`,
lines 245-270): mark all-digit EAN/UPC payloads as product codes and
split EAN13 (length 13) / UPCA (length 12) into fixed-width
subfields. -/
def extract_barcode_info (barcode_data : String) (barcode_type : String) : PyDict :=
  let info : PyDict := [("content", .str barcode_data),
    ("barcode_type", .str barcode_type), ("length", .num (pyLen barcode_data))]
  if (barcode_type ∈ (["EAN13", "EAN8", "UPCA", "UPCE"] : List String))
      ∧ pyIsdigit barcode_data then
    let info := dictSet info "is_product_code" (.bool true)
    if barcode_type = "EAN13" ∧ pyLen barcode_data = 13 then
      dictSet (dictSet (dictSet (dictSet info
        "country_code" (.str (pyTake barcode_data 3)))
        "manufacturer_code" (.str (pyTake (pyDrop barcode_data 3) 5)))
        "product_code" (.str (pyTake (pyDrop barcode_data 8) 4)))
        "check_digit" (.str (pyTake (pyDrop barcode_data 12) 1))
    else if barcode_type = "UPCA" ∧ pyLen barcode_data = 12 then
      dictSet (dictSet (dictSet info
        "manufacturer_code" (.str (pyTake barcode_data 6)))
        "product_code" (.str (pyTake (pyDrop barcode_data 6) 5)))
        "check_digit" (.str (pyTake (pyDrop barcode_data 11) 1))
    else info
  else info

/-- Bounding rectangle of a decoded code. -/
structure Rect where
  left : Int
  top : Int
  width : Int
  height : Int
deriving DecidableEq, Repr

/-- A processed decoded-code dictionary as produced by
`process_decoded_code`: symbology, decoded text (or the
`Error decoding` marker), bounding rectangle, polygon, and the
`detection_scale` key that only the multi-scale path adds. -/
structure Code where
  ctype : String
  data : String
  rect : Rect
  polygon : List (Int × Int)
  detection_scale : Option Rat
deriving DecidableEq, Repr

/-- The fixed battery of preprocessed variants tried by the second
strategy of `extract_codes_from_image` (lines 59-64). -/
inductive PrepVariant where
  | gray
  | equalized
  | blurred
  | thresholded
deriving DecidableEq, Repr

/-- The variants in source order. -/
def prepVariants : List PrepVariant :=
  [.gray, .equalized, .blurred, .thresholded]

/-- Environment of one `extract_codes_from_image` invocation: backend
availability, file existence, and the decode results (already run
through `process_decoded_code`) that pyzbar returns for each strategy;
`none` models that strategy/variant/scale raising an exception. -/
structure DetectEnv where
  pyzbarAvailable : Bool
  fileExists : Bool
  pilDecode : Option (List Code)
  cvReadable : Bool
  prepDecode : PrepVariant → Option (List Code)
  msDecode : Rat → Option (List Code)

/-- Python `int(q)`: truncation toward zero. -/
def pyTrunc (q : Rat) : Int :=
  if 0 ≤ q then ⌊q⌋ else ⌈q⌉

/-- Python `int(x / scale)`: remap one coordinate back to original-image
space. -/
def scaleCoord (x : Int) (scale : Rat) : Int :=
  pyTrunc ((x : Rat) / scale)

/-- The coordinate adjustment of `multi_scale_detection`
(lines 328-335) applied to a decoded code found at `scale ≠ 1`. -/
def remapCode (c : Code) (scale : Rat) : Code :=
  { c with
    rect := ⟨scaleCoord c.rect.left scale, scaleCoord c.rect.top scale,
      scaleCoord c.rect.width scale, scaleCoord c.rect.height scale⟩,
    polygon := c.polygon.map fun q => (scaleCoord q.1 scale, scaleCoord q.2 scale) }

/-- The duplicate check used by strategies 2 and 3: append unless an
already-collected element has the same decoded text
(lines 77-78 and 341-342). -/
def addIfNew (acc : List Code) (c : Code) : List Code :=
  if acc.any (fun e => e.data == c.data) then acc else acc ++ [c]

/-- The fixed scale factors of `multi_scale_detection` (line 306). -/
def scales : List Rat :=
  [1/2, 1, 3/2, 2]

/-- Model of `multi_scale_detection` (`src/utils/code_extractor.py`,
lines 292-352): decode the grayscale image at each scale, remap
coordinates of hits found at `scale ≠ 1`, tag the scale, and
deduplicate by decoded text.  A per-scale exception (`msDecode`
returning `none`) skips that scale. -/
def multi_scale_detection (env : DetectEnv) : List Code :=
  if !env.cvReadable then []
  else
    scales.foldl (fun acc scale =>
      match env.msDecode scale with
      | none => acc
      | some rawCodes =>
        let codes := if env.pyzbarAvailable then rawCodes else []
        codes.foldl (fun acc c =>
          let c := if scale ≠ 1 then remapCode c scale else c
          let c := { c with detection_scale := some scale }
          addIfNew acc c) acc) []

/-- Model of `extract_codes_from_image` (`src/utils/code_extractor.py`,
lines 18-101): capability check, then the three-strategy cascade.
The direct PIL strategy appends every decoded code without a
duplicate check (lines 42-44); the preprocessed-variant and
multi-scale strategies deduplicate by decoded text. -/
def extract_codes_from_image (env : DetectEnv) : List Code :=
  if !env.pyzbarAvailable then []
  else if !env.fileExists then []
  else
    let cs1 := env.pilDecode.getD []
    let cs2 :=
      if cs1.isEmpty then
        if env.cvReadable then
          prepVariants.foldl (fun acc v =>
            match env.prepDecode v with
            | none => acc
            | some codes => codes.foldl addIfNew acc) cs1
        else cs1
      else cs1
    if cs2.isEmpty then cs2 ++ multi_scale_detection env else cs2

/-- The deduplication invariant: no element's decoded text occurs in a
later element. -/
def noDupData : List Code → Bool
  | [] => true
  | c :: cs => !(cs.any fun e => e.data == c.data) && noDupData cs

end CodeExtractor

namespace ImageProcessor

open PyStr CodeExtractor

/-- OpenCV oracles for the preprocessing functions, over an abstract
image type.  `imread` returning `none` models an unreadable image
(`cv2.imread` returning `None`); the transformation oracles may
report an exception, which the source's `try/except` converts into
returning the original path. -/
structure CVEnv (Img : Type) where
  imread : String → Option Img
  imreadGray : String → Option Img
  cvtColorGray : Img → Except String Img
  gaussianBlur : Nat → Img → Except String Img
  adaptiveThreshold : Img → Except String Img
  morphClose : Img → Except String Img
  fastNlMeansDenoising : Img → Except String Img
  equalizeHist : Img → Except String Img
  shape : Img → Nat × Nat
  resize : Img → Nat × Nat → Except String Img
  filter2D : Img → Except String Img
  clahe : Img → Except String Img
  imwrite : String → Img → Except String Unit

/-- Index of the last occurrence of `c` in `l`. -/
def rfindIdx (c : Char) (l : List Char) : Option Nat :=
  match l.reverse.findIdx? (· == c) with
  | none => none
  | some j => some (l.length - 1 - j)

/-- Python `os.path.splitext`: split at the last dot that lies after the last
path separator, unless every basename character before that dot is
itself a dot (hidden-file rule). -/
def splitext (p : String) : String × String :=
  let l := p.toList
  let sepIdx : Int := match rfindIdx '/' l with | none => -1 | some i => (i : Int)
  let dotIdx : Int := match rfindIdx '.' l with | none => -1 | some i => (i : Int)
  if sepIdx < dotIdx then
    let fnStart := (sepIdx + 1).toNat
    let dI := dotIdx.toNat
    if (List.range (dI - fnStart)).any (fun k => ((l.drop (fnStart + k)).head? != some '.')) then
      (String.mk (l.take dI), String.mk (l.drop dI))
    else (p, "")
  else (p, "")

/-- Python `f"{base_path}{suffix}{ext}"` after `os.path.splitext`. -/
def derivedPath (p : String) (suffix : String) : String :=
  (splitext p).1 ++ suffix ++ (splitext p).2

/-- Model of `process_image` (`src/utils/image_processor.py`, lines 9-52):
grayscale, Gaussian blur (5x5), adaptive threshold, morphological
close, denoise, write to `{base}_processed{ext}`; unreadable image or
any exception returns the input path. -/
def process_image {Img : Type} (env : CVEnv Img) (image_path : String) : String :=
  let body : Except String String :=
    match env.imread image_path with
    | none => .ok image_path
    | some img => do
      let gray ← env.cvtColorGray img
      let blurred ← env.gaussianBlur 5 gray
      let binary ← env.adaptiveThreshold blurred
      let cleaned ← env.morphClose binary
      let denoised ← env.fastNlMeansDenoising cleaned
      let processed_path := derivedPath image_path "_processed"
      let _ ← env.imwrite processed_path denoised
      pure processed_path
  match body with
  | .ok p => p
  | .error _ => image_path

/-- Model of `enhance_for_ocr` (lines 54-90): grayscale read, conditional cubic
upscale when either dimension is below 300, sharpening convolution,
CLAHE, write to `{base}_enhanced{ext}`; unreadable image or any
exception returns the input path.  The float scale factor is modelled
with exact rational arithmetic. -/
def enhance_for_ocr {Img : Type} (env : CVEnv Img) (image_path : String) : String :=
  let body : Except String String :=
    match env.imreadGray image_path with
    | none => .ok image_path
    | some img0 => do
      let dims := env.shape img0
      let img ←
        if dims.1 < 300 ∨ dims.2 < 300 then do
          let scale : Rat := max ((300 : Rat) / dims.1) ((300 : Rat) / dims.2)
          let newW := (pyTrunc ((dims.2 : Rat) * scale)).toNat
          let newH := (pyTrunc ((dims.1 : Rat) * scale)).toNat
          env.resize img0 (newW, newH)
        else pure img0
      let sharpened ← env.filter2D img
      let enhanced ← env.clahe sharpened
      let enhanced_path := derivedPath image_path "_enhanced"
      let _ ← env.imwrite enhanced_path enhanced
      pure enhanced_path
  match body with
  | .ok p => p
  | .error _ => image_path

/-- Model of `preprocess_for_codes` (lines 92-119): grayscale, histogram
equalization, Gaussian blur (3x3), write to `{base}_codes{ext}`;
unreadable image or any exception returns the input path. -/
def preprocess_for_codes {Img : Type} (env : CVEnv Img) (image_path : String) : String :=
  let body : Except String String :=
    match env.imread image_path with
    | none => .ok image_path
    | some img => do
      let gray ← env.cvtColorGray img
      let equalized ← env.equalizeHist gray
      let blurred ← env.gaussianBlur 3 equalized
      let preprocessed_path := derivedPath image_path "_codes"
      let _ ← env.imwrite preprocessed_path blurred
      pure preprocessed_path
  match body with
  | .ok p => p
  | .error _ => image_path

/-- What PIL gives `get_image_info` about an opened image. -/
structure PILImage where
  format : String
  mode : String
  width : Nat
  height : Nat

/-- PIL oracle: `Image.open` result, `none` when opening raises. -/
structure PILEnv where
  openImage : String → Option PILImage

/-- Model of `get_image_info` (lines 138-153): the five-key info dict on
success, the empty dict on failure. -/
def get_image_info (env : PILEnv) (image_path : String) : PyDict :=
  match env.openImage image_path with
  | none => []
  | some img =>
    [("format", .str img.format), ("mode", .str img.mode),
      ("size", .pair img.width img.height),
      ("width", .num img.width), ("height", .num img.height)]

end ImageProcessor

section ConcreteEnvironments

open CodeExtractor ImageProcessor

/-- Oracle environment in which neither `json.loads` nor `float()`
ever succeeds (the counterexample payloads never reach either). -/
def envNone : PyEnv :=
  ⟨fun _ => false, fun _ => false⟩

/-- A sample processed code with the given decoded text. -/
def sampleCode (s : String) : Code :=
  ⟨"QRCODE", s, ⟨0, 0, 10, 10⟩, [], none⟩

/-- Detection environment whose direct PIL decode returns the same
decoded text twice (one image containing two copies of one code). -/
def envDirectDup : DetectEnv :=
  { pyzbarAvailable := true, fileExists := true,
    pilDecode := some [sampleCode "HELLO", sampleCode "HELLO"],
    cvReadable := false, prepDecode := fun _ => none, msDecode := fun _ => none }

/-- Detection environment whose direct decode finds nothing and whose
grayscale variant returns a duplicated text. -/
def envPrepDup : DetectEnv :=
  { pyzbarAvailable := true, fileExists := true, pilDecode := some [],
    cvReadable := true,
    prepDecode := fun v =>
      match v with
      | .gray => some [sampleCode "A", sampleCode "A", sampleCode "B"]
      | _ => some [sampleCode "A"],
    msDecode := fun _ => none }

/-- Detection environment with the backend unavailable. -/
def envNoPyzbar : DetectEnv :=
  { pyzbarAvailable := false, fileExists := true,
    pilDecode := some [sampleCode "X"], cvReadable := true,
    prepDecode := fun _ => some [sampleCode "Y"],
    msDecode := fun _ => some [sampleCode "Z"] }

/-- OpenCV environment over the unit image type in which no image can
be read. -/
def cvEnvUnreadable : CVEnv Unit :=
  { imread := fun _ => none, imreadGray := fun _ => none,
    cvtColorGray := fun _ => .ok (), gaussianBlur := fun _ _ => .ok (),
    adaptiveThreshold := fun _ => .ok (), morphClose := fun _ => .ok (),
    fastNlMeansDenoising := fun _ => .ok (), equalizeHist := fun _ => .ok (),
    shape := fun _ => (0, 0), resize := fun _ _ => .ok (),
    filter2D := fun _ => .ok (), clahe := fun _ => .ok (),
    imwrite := fun _ _ => .ok () }

/-- PIL environment that opens every path as a 640x480 RGB PNG. -/
def pilEnvSample : PILEnv :=
  ⟨fun _ => some ⟨"PNG", "RGB", 640, 480⟩⟩

end ConcreteEnvironments

namespace OcrProcessor

open PyStr

theorem noAdjWS_tail {c : Char} {cs : List Char} (h : noAdjWS (c :: cs) = true) :
    noAdjWS cs = true := by
  simp only [noAdjWS, Bool.and_eq_true] at h
  exact h.2

theorem collapseAux_wsAllSpace (b : Bool) (l : List Char) :
    wsAllSpace (collapseAux b l) = true := by
  induction l generalizing b with
  | nil => rfl
  | cons c cs ih =>
    by_cases hc : isSpaceChar c = true
    · by_cases hb : b = true
      · simpa [collapseAux, hc, hb] using ih true
      · simp only [Bool.not_eq_true] at hb
        have := ih true
        simp_all [collapseAux, wsAllSpace, isSpaceChar]
    · simp only [Bool.not_eq_true] at hc
      have := ih false
      simp_all [collapseAux, wsAllSpace]

theorem collapseAux_true_headNotWS (l : List Char) :
    headNotWS (collapseAux true l) = true := by
  induction l with
  | nil => rfl
  | cons c cs ih =>
    by_cases hc : isSpaceChar c = true
    · simpa [collapseAux, hc] using ih
    · simp only [Bool.not_eq_true] at hc
      simp [collapseAux, hc, headNotWS]

theorem collapseAux_noAdjWS (b : Bool) (l : List Char) :
    noAdjWS (collapseAux b l) = true := by
  induction l generalizing b with
  | nil => rfl
  | cons c cs ih =>
    by_cases hc : isSpaceChar c = true
    · by_cases hb : b = true
      · simpa [collapseAux, hc, hb] using ih true
      · simp only [Bool.not_eq_true] at hb
        have h1 := ih true
        have h2 := collapseAux_true_headNotWS cs
        simp_all [collapseAux, noAdjWS, isSpaceChar]
    · simp only [Bool.not_eq_true] at hc
      have := ih false
      simp_all [collapseAux, noAdjWS, headNotWS]

theorem collapseAux_all {p : Char → Bool} (hsp : p ' ' = true)
    {l : List Char} (h : l.all p = true) :
    ∀ b, (collapseAux b l).all p = true := by
  induction l with
  | nil => intro b; rfl
  | cons c cs ih =>
    intro b
    simp only [List.all_cons, Bool.and_eq_true] at h
    by_cases hc : isSpaceChar c = true
    · by_cases hb : b = true
      · simpa [collapseAux, hc, hb] using ih h.2 true
      · simp only [Bool.not_eq_true] at hb
        have := ih h.2 true
        simp_all [collapseAux]
    · simp only [Bool.not_eq_true] at hc
      have := ih h.2 false
      simp_all [collapseAux]

theorem collapseAux_true_eq_false {l : List Char} (h : headNotWS l = true) :
    collapseAux true l = collapseAux false l := by
  cases l with
  | nil => rfl
  | cons c cs =>
    simp only [headNotWS, Bool.not_eq_true'] at h
    simp [collapseAux, h]

theorem collapseAux_eq_self {l : List Char} (h1 : wsAllSpace l = true)
    (h2 : noAdjWS l = true) : collapseAux false l = l := by
  induction l with
  | nil => rfl
  | cons c cs ih =>
    have h1t : wsAllSpace cs = true := by
      simp only [wsAllSpace, List.all_cons, Bool.and_eq_true] at h1
      exact h1.2
    have h2t := noAdjWS_tail h2
    by_cases hc : isSpaceChar c = true
    · have hcsp : c = ' ' := by
        simp only [wsAllSpace, List.all_cons, Bool.and_eq_true, Bool.or_eq_true,
          Bool.not_eq_true', decide_eq_true_eq] at h1
        rcases h1.1 with h | h
        · rw [h] at hc; exact absurd hc (by decide)
        · exact h
      have hhd : headNotWS cs = true := by
        simp only [noAdjWS, Bool.and_eq_true, Bool.or_eq_true, Bool.not_eq_true'] at h2
        rcases h2.1 with h | h
        · rw [h] at hc; exact absurd hc (by decide)
        · exact h
      have hrec : collapseAux true cs = cs := by
        rw [collapseAux_true_eq_false hhd]
        exact ih h1t h2t
      have hstep : collapseAux false (c :: cs) = ' ' :: collapseAux true cs := by
        simp [collapseAux, hc]
      rw [hstep, hrec, hcsp]
    · simp only [Bool.not_eq_true] at hc
      have := ih h1t h2t
      simp [collapseAux, hc, this]

theorem all_of_sublist {p : Char → Bool} {l l' : List Char}
    (hs : List.Sublist l' l) (h : l.all p = true) : l'.all p = true := by
  rw [List.all_eq_true] at *
  exact fun a ha => h a (hs.subset ha)

theorem dropTrail_sublist (l : List Char) : List.Sublist (dropTrail l) l := by
  induction l with
  | nil => simp [dropTrail]
  | cons c cs ih =>
    rw [dropTrail]
    split
    · exact List.nil_sublist _
    · exact List.Sublist.cons₂ c ih

theorem noAdjWS_dropWhile {l : List Char} (h : noAdjWS l = true) :
    noAdjWS (l.dropWhile isSpaceChar) = true := by
  induction l with
  | nil => exact h
  | cons c cs ih =>
    by_cases hc : isSpaceChar c = true
    · rw [List.dropWhile_cons_of_pos hc]
      exact ih (noAdjWS_tail h)
    · rwa [List.dropWhile_cons_of_neg (by simp [hc])]

theorem headNotWS_dropTrail {l : List Char} (h : headNotWS l = true) :
    headNotWS (dropTrail l) = true := by
  cases l with
  | nil => exact h
  | cons c cs =>
    rw [dropTrail]
    split
    · rfl
    · exact h

theorem noAdjWS_dropTrail {l : List Char} (h : noAdjWS l = true) :
    noAdjWS (dropTrail l) = true := by
  induction l with
  | nil => exact h
  | cons c cs ih =>
    rw [dropTrail]
    split
    · rfl
    · have ht := ih (noAdjWS_tail h)
      simp only [noAdjWS, Bool.and_eq_true, Bool.or_eq_true, Bool.not_eq_true'] at h ⊢
      refine ⟨?_, ht⟩
      rcases h.1 with hh | hh
      · exact Or.inl hh
      · exact Or.inr (headNotWS_dropTrail hh)

theorem headNotWS_dropWhile (l : List Char) :
    headNotWS (l.dropWhile isSpaceChar) = true := by
  induction l with
  | nil => rfl
  | cons c cs ih =>
    by_cases hc : isSpaceChar c = true
    · rwa [List.dropWhile_cons_of_pos hc]
    · rw [List.dropWhile_cons_of_neg (by simp [hc])]
      simpa [headNotWS] using hc

theorem dropWhile_eq_self_of_headNotWS {l : List Char} (h : headNotWS l = true) :
    l.dropWhile isSpaceChar = l := by
  cases l with
  | nil => rfl
  | cons c cs =>
    simp only [headNotWS, Bool.not_eq_true'] at h
    rw [List.dropWhile_cons_of_neg (by simp [h])]

theorem dropTrail_idem (l : List Char) : dropTrail (dropTrail l) = dropTrail l := by
  induction l with
  | nil => rfl
  | cons c cs ih =>
    rw [dropTrail]
    split
    · rfl
    · rw [dropTrail, ih]
      simp_all

theorem stripL_idem (l : List Char) : stripL (stripL l) = stripL l := by
  unfold stripL
  rw [dropWhile_eq_self_of_headNotWS
    (headNotWS_dropTrail (headNotWS_dropWhile l))]
  exact dropTrail_idem _

theorem stripL_sublist (l : List Char) : List.Sublist (stripL l) l :=
  (dropTrail_sublist _).trans (List.dropWhile_sublist _)

theorem noAdjWS_stripL {l : List Char} (h : noAdjWS l = true) :
    noAdjWS (stripL l) = true :=
  noAdjWS_dropTrail (noAdjWS_dropWhile h)

/-- The conditions under which one application of `cleanL` is the
identity: every character allowed, every whitespace character a plain
space, no adjacent whitespace, and both ends already stripped. -/
theorem cleanL_eq_self {l : List Char} (h1 : l.all allowedChar = true)
    (h2 : wsAllSpace l = true) (h3 : noAdjWS l = true)
    (h4 : stripL l = l) : cleanL l = l := by
  cases l with
  | nil => rfl
  | cons c cs =>
    unfold cleanL collapseWS
    rw [if_neg (by simp), collapseAux_eq_self h2 h3,
      List.filter_eq_self.mpr (List.all_eq_true.mp h1), h4]

theorem cleanL_all_allowed (l : List Char) :
    (cleanL l).all allowedChar = true := by
  unfold cleanL
  split
  · rfl
  · exact all_of_sublist (stripL_sublist _)
      (by rw [List.all_eq_true]; exact fun a ha => List.of_mem_filter ha)

/-- Shape of `cleanL` on a list all of whose characters are allowed:
the character filter is the identity, leaving collapse-then-strip. -/
theorem cleanL_of_all_allowed {l : List Char} (h : l.all allowedChar = true) :
    cleanL l = if l.isEmpty then [] else stripL (collapseWS l) := by
  unfold cleanL
  split
  · rfl
  · rw [List.filter_eq_self.mpr]
    intro a ha
    have := collapseAux_all (p := allowedChar) (by decide) h false
    exact List.all_eq_true.mp this a ha

/-- From the second application of `cleanL` on, the result is a fixed
point. -/
theorem cleanL_double_fixpoint (l : List Char) :
    cleanL (cleanL (cleanL l)) = cleanL (cleanL l) := by
  set t1 := cleanL l with ht1
  have ht1a : t1.all allowedChar = true := cleanL_all_allowed l
  rw [cleanL_of_all_allowed ht1a]
  by_cases h0 : t1.isEmpty = true
  · simp only [h0, if_true]
    rfl
  · rw [if_neg h0]
    set t2 := stripL (collapseWS t1) with ht2
    have hall : t2.all allowedChar = true :=
      all_of_sublist (stripL_sublist _)
        (collapseAux_all (p := allowedChar) (by decide) ht1a false)
    have hws : wsAllSpace t2 = true :=
      all_of_sublist (stripL_sublist _) (collapseAux_wsAllSpace false t1)
    have hadj : noAdjWS t2 = true :=
      noAdjWS_stripL (collapseAux_noAdjWS false t1)
    have hstrip : stripL t2 = t2 := by
      rw [ht2, stripL_idem]
    exact cleanL_eq_self hall hws hadj hstrip

end OcrProcessor

/-- C2 counterexample: `clean_ocr_text` is not idempotent.  On
`"a \x01 b"` the disallowed control character sits between two single
spaces; the first pass removes it, leaving two adjacent spaces, which
only a second pass collapses, so cleaning twice differs from cleaning
once. -/
theorem claim_C2_counterexample :
    OcrProcessor.clean_ocr_text (OcrProcessor.clean_ocr_text "a \x01 b")
      ≠ OcrProcessor.clean_ocr_text "a \x01 b" := by
  decide

/-- C2 (amended): `clean_ocr_text` is idempotent from the second
application on: for every string `s`, `clean_text(clean_text(s))` is a
fixed point of `clean_text`.  Single-application idempotence fails
exactly when removing a disallowed character merges two whitespace
runs. -/
theorem claim_C2_amended (s : String) :
    OcrProcessor.clean_ocr_text (OcrProcessor.clean_ocr_text (OcrProcessor.clean_ocr_text s))
      = OcrProcessor.clean_ocr_text (OcrProcessor.clean_ocr_text s) := by
  show String.mk (OcrProcessor.cleanL (String.mk (OcrProcessor.cleanL (String.mk
      (OcrProcessor.cleanL s.toList)).toList)).toList)
    = String.mk (OcrProcessor.cleanL (String.mk (OcrProcessor.cleanL s.toList)).toList)
  have hmk : ∀ l : List Char, (String.mk l).toList = l := fun _ => rfl
  rw [hmk, hmk]
  exact congrArg String.mk (OcrProcessor.cleanL_double_fixpoint s.toList)

namespace CodeExtractor

theorem dictGet_dictSet_eq (d : PyDict) (k : String) (v : PyVal) :
    dictGet (dictSet d k v) k = some v := by
  induction d with
  | nil => simp [dictSet, dictGet]
  | cons kv rest ih =>
    rw [dictSet]
    split
    · simp [dictGet]
    · rw [dictGet]
      split
      · simp_all
      · exact ih

theorem dictGet_dictSet_ne (d : PyDict) {k' k : String} (v : PyVal) (h : k' ≠ k) :
    dictGet (dictSet d k' v) k = dictGet d k := by
  induction d with
  | nil => simp [dictSet, dictGet, h]
  | cons kv rest ih =>
    rw [dictSet]
    split
    · next heq =>
      have hne : kv.1 ≠ k := by rw [heq]; exact h
      rw [dictGet, if_neg h]
      conv_rhs => rw [dictGet, if_neg hne]
    · rw [dictGet, dictGet]
      split
      · rfl
      · exact ih

end CodeExtractor

namespace CodeExtractor

theorem noDupData_append_single {acc : List Code} {c : Code}
    (hd : noDupData acc = true)
    (hnew : acc.any (fun e => e.data == c.data) = false) :
    noDupData (acc ++ [c]) = true := by
  induction acc with
  | nil => simp [noDupData]
  | cons a rest ih =>
    simp only [List.any_cons, Bool.or_eq_false_iff] at hnew
    simp only [noDupData, Bool.and_eq_true, Bool.not_eq_true'] at hd
    simp only [List.cons_append, noDupData, Bool.and_eq_true, Bool.not_eq_true']
    refine ⟨?_, ih hd.2 hnew.2⟩
    simp only [List.append_eq, List.any_append, List.any_cons, List.any_nil,
      Bool.or_false, Bool.or_eq_false_iff]
    refine ⟨hd.1, ?_⟩
    have h1 := hnew.1
    simp only [beq_eq_false_iff_ne, ne_eq] at h1 ⊢
    exact fun hh => h1 hh.symm

theorem noDupData_addIfNew (acc : List Code) (c : Code)
    (hd : noDupData acc = true) : noDupData (addIfNew acc c) = true := by
  unfold addIfNew
  split
  · exact hd
  · next h => exact noDupData_append_single hd (by rwa [Bool.not_eq_true] at h)

theorem noDupData_foldl {α : Type} (step : List Code → α → List Code)
    (hstep : ∀ acc x, noDupData acc = true → noDupData (step acc x) = true)
    (xs : List α) : ∀ {acc : List Code}, noDupData acc = true →
    noDupData (xs.foldl step acc) = true := by
  induction xs with
  | nil => exact fun hd => hd
  | cons x rest ih => exact fun hd => ih (hstep _ x hd)

theorem noDupData_multi_scale (env : DetectEnv) :
    noDupData (multi_scale_detection env) = true := by
  unfold multi_scale_detection
  split
  · rfl
  · refine noDupData_foldl _ ?_ scales (by rfl)
    intro acc scale hd
    cases env.msDecode scale with
    | none => exact hd
    | some rawCodes =>
      dsimp only
      refine noDupData_foldl _ ?_ _ hd
      intro acc c hdc
      exact noDupData_addIfNew _ _ hdc

theorem noDupData_strategy2 (env : DetectEnv) :
    noDupData (if env.cvReadable = true then
      prepVariants.foldl (fun acc v =>
        match env.prepDecode v with
        | none => acc
        | some codes => codes.foldl addIfNew acc) []
      else []) = true := by
  split
  · refine noDupData_foldl _ ?_ _ (by rfl)
    intro acc v hd
    cases env.prepDecode v with
    | none => exact hd
    | some codes => exact noDupData_foldl addIfNew noDupData_addIfNew codes hd
  · rfl

theorem noDupData_cascade (ms l2 : List Code) (h2 : noDupData l2 = true)
    (hms : noDupData ms = true) :
    noDupData (if l2.isEmpty = true then l2 ++ ms else l2) = true := by
  split
  · next he =>
    rw [List.isEmpty_iff.mp he, List.nil_append]
    exact hms
  · exact h2

end CodeExtractor

/-- C1 counterexample: when the direct PIL decode returns two codes
with identical decoded text, `extract_codes_from_image` appends both
without a duplicate check, so the returned list violates the
claimed deduplication invariant. -/
theorem claim_C1_counterexample :
    CodeExtractor.noDupData (CodeExtractor.extract_codes_from_image envDirectDup) = false := by
  decide

/-- C1 (amended): whenever the direct PIL-decode strategy contributes
no codes (it raised or decoded nothing), so the returned list is
produced by the preprocessed-variant and multi-scale strategies, no
two elements of the result share decoded text; the direct strategy
itself appends every decoded code without a duplicate check. -/
theorem claim_C1_amended (env : CodeExtractor.DetectEnv)
    (h : env.pilDecode.getD [] = []) :
    CodeExtractor.noDupData (CodeExtractor.extract_codes_from_image env) = true := by
  unfold CodeExtractor.extract_codes_from_image
  split
  · rfl
  · split
    · rfl
    · rw [h]
      exact CodeExtractor.noDupData_cascade _ _
        (CodeExtractor.noDupData_strategy2 env)
        (CodeExtractor.noDupData_multi_scale env)

/-- C1 witness: a run in which the direct decode finds nothing and the
grayscale variant reports the text `A` twice and `B` once yields a
deduplicated result. -/
theorem claim_C1_witness :
    CodeExtractor.noDupData (CodeExtractor.extract_codes_from_image envPrepDup) = true :=
  claim_C1_amended envPrepDup (by decide)

/-- C6: when the pyzbar backend is unavailable,
`extract_codes_from_image` returns the empty list before attempting
any strategy, for every environment (hence every input path). -/
theorem claim_C6 (env : CodeExtractor.DetectEnv)
    (h : env.pyzbarAvailable = false) :
    CodeExtractor.extract_codes_from_image env = [] := by
  unfold CodeExtractor.extract_codes_from_image
  rw [h]
  rfl

/-- C6 witness: the concrete backend-unavailable environment, in which
every strategy would decode codes were it consulted, still yields the
empty list. -/
theorem claim_C6_witness :
    CodeExtractor.extract_codes_from_image envNoPyzbar = [] :=
  claim_C6 envNoPyzbar rfl

/-- C3: code-bug evidence.  On the payload
`WIFI:T:WPA;S:MyNet;P:secret;H:false;` the interpretation is typed
`wifi` and carries ssid/password/hidden, but no `security` key exists:
the code splits the whole payload on `;`, so the first part is
`WIFI:T:WPA`, whose `split(':', 1)` key is `WIFI`, and the `T` field is
dropped instead of mapping to security=WPA as specified. -/
theorem claim_C3_code_eval :
    CodeExtractor.dictGet (CodeExtractor.extract_qr_info envNone
      "WIFI:T:WPA;S:MyNet;P:secret;H:false;") "security" = none
    ∧ CodeExtractor.dictGet (CodeExtractor.extract_qr_info envNone
      "WIFI:T:WPA;S:MyNet;P:secret;H:false;") "ssid"
        = some (.str "MyNet")
    ∧ CodeExtractor.dictGet (CodeExtractor.extract_qr_info envNone
      "WIFI:T:WPA;S:MyNet;P:secret;H:false;") "password"
        = some (.str "secret")
    ∧ CodeExtractor.dictGet (CodeExtractor.extract_qr_info envNone
      "WIFI:T:WPA;S:MyNet;P:secret;H:false;") "hidden"
        = some (.str "false")
    ∧ CodeExtractor.dictGet (CodeExtractor.extract_qr_info envNone
      "WIFI:T:WPA;S:MyNet;P:secret;H:false;") "type"
        = some (.str "wifi") := by
  decide

/-- C4: on the sample receipt text, `extract_structured_data` yields
`$123.45` among the amounts, `03/15/2024` among the dates, `a@b.com`
among the emails, and `INV-2024-001` among the invoice numbers. -/
theorem claim_C4 :
    "$123.45" ∈ (OcrProcessor.extract_structured_data
      "Invoice #INV-2024-001 Total $123.45 due 03/15/2024 contact a@b.com").amounts
    ∧ "03/15/2024" ∈ (OcrProcessor.extract_structured_data
      "Invoice #INV-2024-001 Total $123.45 due 03/15/2024 contact a@b.com").dates
    ∧ "a@b.com" ∈ (OcrProcessor.extract_structured_data
      "Invoice #INV-2024-001 Total $123.45 due 03/15/2024 contact a@b.com").emails
    ∧ "INV-2024-001" ∈ (OcrProcessor.extract_structured_data
      "Invoice #INV-2024-001 Total $123.45 due 03/15/2024 contact a@b.com").invoice_numbers := by
  decide

/-- C9: the bare-digit-run amount pattern `\d{1,3}(?:,\d{3})*\.?\d*`
matches the components of a date, so on `due 03/15/2024`, a text with
no monetary amount, the amounts set is nonempty and contains `03`,
`15` and `2024`. -/
theorem claim_C9 :
    "03" ∈ (OcrProcessor.extract_structured_data "due 03/15/2024").amounts
    ∧ "15" ∈ (OcrProcessor.extract_structured_data "due 03/15/2024").amounts
    ∧ "2024" ∈ (OcrProcessor.extract_structured_data "due 03/15/2024").amounts
    ∧ (OcrProcessor.extract_structured_data "due 03/15/2024").amounts ≠ [] := by
  decide

/-- C7: for an all-digit EAN13 payload, `extract_barcode_info` marks a
product code; a payload of length 13 is split at the fixed offsets
country `[0:3]`, manufacturer `[3:8]`, product `[8:12]`, check digit
`[12]`, while any other length produces no subfield but keeps the
product-code flag. -/
theorem claim_C7 (s : String) (hd : PyStr.pyIsdigit s = true) :
    (PyStr.pyLen s = 13 →
      CodeExtractor.dictGet (CodeExtractor.extract_barcode_info s "EAN13") "is_product_code"
        = some (.bool true)
      ∧ CodeExtractor.dictGet (CodeExtractor.extract_barcode_info s "EAN13") "country_code"
        = some (.str (PyStr.pyTake s 3))
      ∧ CodeExtractor.dictGet (CodeExtractor.extract_barcode_info s "EAN13") "manufacturer_code"
        = some (.str (PyStr.pyTake (PyStr.pyDrop s 3) 5))
      ∧ CodeExtractor.dictGet (CodeExtractor.extract_barcode_info s "EAN13") "product_code"
        = some (.str (PyStr.pyTake (PyStr.pyDrop s 8) 4))
      ∧ CodeExtractor.dictGet (CodeExtractor.extract_barcode_info s "EAN13") "check_digit"
        = some (.str (PyStr.pyTake (PyStr.pyDrop s 12) 1)))
    ∧ (PyStr.pyLen s ≠ 13 →
      CodeExtractor.dictGet (CodeExtractor.extract_barcode_info s "EAN13") "is_product_code"
        = some (.bool true)
      ∧ CodeExtractor.dictGet (CodeExtractor.extract_barcode_info s "EAN13") "country_code" = none
      ∧ CodeExtractor.dictGet (CodeExtractor.extract_barcode_info s "EAN13") "manufacturer_code" = none
      ∧ CodeExtractor.dictGet (CodeExtractor.extract_barcode_info s "EAN13") "product_code" = none
      ∧ CodeExtractor.dictGet (CodeExtractor.extract_barcode_info s "EAN13") "check_digit" = none) := by
  unfold CodeExtractor.extract_barcode_info
  rw [if_pos ⟨by decide, hd⟩]
  constructor
  · intro h13
    rw [if_pos ⟨rfl, h13⟩]
    refine ⟨?_, ?_, ?_, ?_, ?_⟩ <;>
      simp [CodeExtractor.dictGet_dictSet_eq, CodeExtractor.dictGet_dictSet_ne,
        CodeExtractor.dictGet]
  · intro h13
    rw [if_neg (fun hh => h13 hh.2), if_neg (fun hh => absurd hh.1 (by decide))]
    refine ⟨?_, ?_, ?_, ?_, ?_⟩ <;>
      simp [CodeExtractor.dictGet_dictSet_eq, CodeExtractor.dictGet_dictSet_ne,
        CodeExtractor.dictGet]

/-- C7 witness: the theorem applied to the 13-digit payload
`4006381333931`, whose subfields evaluate concretely. -/
theorem claim_C7_witness :
    CodeExtractor.dictGet (CodeExtractor.extract_barcode_info "4006381333931" "EAN13")
      "country_code" = some (.str "400")
    ∧ CodeExtractor.dictGet (CodeExtractor.extract_barcode_info "4006381333931" "EAN13")
      "manufacturer_code" = some (.str "63813")
    ∧ CodeExtractor.dictGet (CodeExtractor.extract_barcode_info "4006381333931" "EAN13")
      "product_code" = some (.str "3393")
    ∧ CodeExtractor.dictGet (CodeExtractor.extract_barcode_info "4006381333931" "EAN13")
      "check_digit" = some (.str "1") := by
  have h := (claim_C7 "4006381333931" (by decide)).1 (by decide)
  exact ⟨h.2.1, h.2.2.1, h.2.2.2.1, h.2.2.2.2⟩

/-- C5: when the image cannot be read (`cv2.imread` returns `None` on
the color and grayscale paths), each preprocessing function returns
the original input path unchanged; the functions are total, modelling
that the source's `try/except` never lets an exception escape. -/
theorem claim_C5 {Img : Type} (env : ImageProcessor.CVEnv Img) (path : String)
    (h1 : env.imread path = none) (h2 : env.imreadGray path = none) :
    ImageProcessor.process_image env path = path
    ∧ ImageProcessor.enhance_for_ocr env path = path
    ∧ ImageProcessor.preprocess_for_codes env path = path := by
  unfold ImageProcessor.process_image ImageProcessor.enhance_for_ocr
    ImageProcessor.preprocess_for_codes
  rw [h1, h2]
  exact ⟨rfl, rfl, rfl⟩

/-- C5 witness: the unreadable-image environment over the unit image
type returns the input path from all three preprocessing functions. -/
theorem claim_C5_witness :
    ImageProcessor.process_image cvEnvUnreadable "receipt.png" = "receipt.png"
    ∧ ImageProcessor.enhance_for_ocr cvEnvUnreadable "receipt.png" = "receipt.png"
    ∧ ImageProcessor.preprocess_for_codes cvEnvUnreadable "receipt.png" = "receipt.png" :=
  claim_C5 cvEnvUnreadable "receipt.png" rfl rfl

/-- C8 counterexample: on a readable image, `get_image_info` returns a
nonempty mapping whose key set is not `{format, color_mode, width,
height}`: it contains `size` (and `mode` rather than `color_mode`). -/
theorem claim_C8_counterexample :
    ¬(ImageProcessor.get_image_info pilEnvSample "img.png" = []
      ∨ ∀ k, k ∈ CodeExtractor.dictKeys (ImageProcessor.get_image_info pilEnvSample "img.png")
        ↔ k ∈ (["format", "color_mode", "width", "height"] : List String)) := by
  intro h
  rcases h with h | h
  · exact absurd h (by decide)
  · exact absurd ((h "size").mp (by decide)) (by decide)

/-- C8 (amended): for every environment and path, `get_image_info`
returns either the empty mapping (open failure) or a mapping with
exactly the keys `format`, `mode`, `size`, `width`, `height` in that
insertion order. -/
theorem claim_C8_amended (env : ImageProcessor.PILEnv) (path : String) :
    ImageProcessor.get_image_info env path = []
    ∨ CodeExtractor.dictKeys (ImageProcessor.get_image_info env path)
      = ["format", "mode", "size", "width", "height"] := by
  unfold ImageProcessor.get_image_info
  cases env.openImage path with
  | none => exact Or.inl rfl
  | some img => exact Or.inr rfl

namespace CodeExtractor

open PyStr

theorem head_eq_of_pyStartsWith {s p : String} (h : pyStartsWith s p = true) :
    s.toList.head? = p.toList.head? ∨ p.toList = [] := by
  unfold pyStartsWith at h
  cases hp : p.toList with
  | nil => exact Or.inr rfl
  | cons c l =>
    rw [hp] at h
    cases hs : s.toList with
    | nil => rw [hs] at h; simp [List.isPrefixOf] at h
    | cons a t =>
      rw [hs] at h
      simp only [List.isPrefixOf, Bool.and_eq_true, beq_iff_eq] at h
      simp [h.1]

theorem head_some_of_pyStartsWith {s p : String} {c : Char}
    (h : pyStartsWith s p = true) (hp : p.toList.head? = some c) :
    s.toList.head? = some c := by
  rcases head_eq_of_pyStartsWith h with heq | habs
  · exact heq.trans hp
  · rw [habs] at hp; cases hp

theorem head_pyLower (s : String) :
    (pyLower s).toList.head? = s.toList.head?.map Char.toLower := by
  unfold pyLower
  cases hs : s.toList with
  | nil => rfl
  | cons a t => rfl

theorem dictGet_wifiStep_ne (acc : PyDict) (part : String) {k : String}
    (h1 : k ≠ "security") (h2 : k ≠ "ssid") (h3 : k ≠ "password")
    (h4 : k ≠ "hidden") :
    dictGet (wifiStep acc part) k = dictGet acc k := by
  unfold wifiStep
  cases splitFirst ':' part with
  | none => rfl
  | some kv =>
    obtain ⟨key, value⟩ := kv
    dsimp only
    split
    · next hkey =>
      simp only [Bool.or_eq_true, decide_eq_true_eq] at hkey
      rcases hkey with ((h | h) | h) | h
      · rw [h]; exact dictGet_dictSet_ne acc _ (Ne.symm h1)
      · rw [h]; exact dictGet_dictSet_ne acc _ (Ne.symm h2)
      · rw [h]; exact dictGet_dictSet_ne acc _ (Ne.symm h3)
      · rw [h]; exact dictGet_dictSet_ne acc _ (Ne.symm h4)
    · rfl

theorem dictGet_wifiFold (parts : List String) (acc : PyDict) {k : String}
    (h1 : k ≠ "security") (h2 : k ≠ "ssid") (h3 : k ≠ "password")
    (h4 : k ≠ "hidden") :
    dictGet (parts.foldl wifiStep acc) k = dictGet acc k := by
  induction parts generalizing acc with
  | nil => rfl
  | cons part rest ih =>
    rw [List.foldl_cons, ih, dictGet_wifiStep_ne acc part h1 h2 h3 h4]

end CodeExtractor

/-- C10 counterexample: a payload starting with `BEGIN:VCARD` whose
vCard lines include a `content:` record overwrites the `content` key,
so the interpretation does not contain the original payload under
`content`. -/
theorem claim_C10_counterexample :
    CodeExtractor.dictGet (CodeExtractor.extract_qr_info envNone
      "BEGIN:VCARD\ncontent:evil") "content"
      ≠ some (.str "BEGIN:VCARD\ncontent:evil") := by
  decide

/-- C10 (amended): for every input string that does not start with
`BEGIN:VCARD`, the interpretation returned by the total function
`extract_qr_info` contains the original payload under `content`, its
length under `length`, and a `type` among url, wifi, email, phone,
sms, location, json, text; a `geo:` payload whose first coordinate
fails float parsing is classified `location` with latitude and
longitude silently omitted.  (The vCard branch may overwrite
`content`, `length` and `type` with line values, which is what the
counterexample exhibits.) -/
theorem claim_C10_amended (env : CodeExtractor.PyEnv) (s : String)
    (hv : PyStr.pyStartsWith s "BEGIN:VCARD" = false) :
    CodeExtractor.dictGet (CodeExtractor.extract_qr_info env s) "content"
      = some (.str s)
    ∧ CodeExtractor.dictGet (CodeExtractor.extract_qr_info env s) "length"
      = some (.num (PyStr.pyLen s))
    ∧ (∃ t, CodeExtractor.dictGet (CodeExtractor.extract_qr_info env s) "type"
        = some (.str t)
        ∧ t ∈ (["url", "wifi", "email", "phone", "sms", "location", "json",
          "text"] : List String))
    ∧ (PyStr.pyStartsWith s "geo:" = true →
        env.floatParses ((PyStr.pySplitChar ',' (PyStr.pyDrop s 4)).headD "") = false →
        CodeExtractor.dictGet (CodeExtractor.extract_qr_info env s) "latitude" = none
        ∧ CodeExtractor.dictGet (CodeExtractor.extract_qr_info env s) "longitude" = none
        ∧ CodeExtractor.dictGet (CodeExtractor.extract_qr_info env s) "type"
          = some (.str "location")) := by
  have hv' : ¬ (PyStr.pyStartsWith s "BEGIN:VCARD" = true) := by simp [hv]
  simp only [CodeExtractor.extract_qr_info]
  by_cases h1 : (PyStr.pyStartsWith (PyStr.pyLower s) "http://"
      || PyStr.pyStartsWith (PyStr.pyLower s) "https://") = true
  · rw [if_pos h1]
    refine ⟨?_, ?_, ⟨"url", ?_, by decide⟩, ?_⟩
    · simp [CodeExtractor.dictGet_dictSet_ne, CodeExtractor.dictGet_dictSet_eq,
        CodeExtractor.dictGet]
    · simp [CodeExtractor.dictGet_dictSet_ne, CodeExtractor.dictGet_dictSet_eq,
        CodeExtractor.dictGet]
    · simp [CodeExtractor.dictGet_dictSet_ne, CodeExtractor.dictGet_dictSet_eq]
    · intro hgeo _
      exfalso
      have hg : s.toList.head? = some 'g' :=
        CodeExtractor.head_some_of_pyStartsWith hgeo (by decide)
      have hh : (PyStr.pyLower s).toList.head? = some 'h' := by
        rw [Bool.or_eq_true] at h1
        rcases h1 with h | h
        · exact CodeExtractor.head_some_of_pyStartsWith h (by decide)
        · exact CodeExtractor.head_some_of_pyStartsWith h (by decide)
      rw [CodeExtractor.head_pyLower, hg] at hh
      exact absurd hh (by decide)
  · rw [if_neg h1]
    by_cases h2 : PyStr.pyStartsWith s "WIFI:" = true
    · rw [if_pos h2]
      refine ⟨?_, ?_, ⟨"wifi", ?_, by decide⟩, ?_⟩
      · rw [CodeExtractor.dictGet_wifiFold _ _ (by decide) (by decide) (by decide)
          (by decide)]
        simp [CodeExtractor.dictGet_dictSet_ne, CodeExtractor.dictGet]
      · rw [CodeExtractor.dictGet_wifiFold _ _ (by decide) (by decide) (by decide)
          (by decide)]
        simp [CodeExtractor.dictGet_dictSet_ne, CodeExtractor.dictGet]
      · rw [CodeExtractor.dictGet_wifiFold _ _ (by decide) (by decide) (by decide)
          (by decide)]
        simp [CodeExtractor.dictGet_dictSet_eq]
      · intro hgeo _
        exfalso
        have hg : s.toList.head? = some 'g' :=
          CodeExtractor.head_some_of_pyStartsWith hgeo (by decide)
        have hw : s.toList.head? = some 'W' :=
          CodeExtractor.head_some_of_pyStartsWith h2 (by decide)
        exact absurd (hw.symm.trans hg) (by decide)
    · rw [if_neg h2, if_neg hv']
      by_cases h4 : PyStr.pyStartsWith s "mailto:" = true
      · rw [if_pos h4]
        refine ⟨?_, ?_, ⟨"email", ?_, by decide⟩, ?_⟩
        · simp [CodeExtractor.dictGet_dictSet_ne, CodeExtractor.dictGet_dictSet_eq,
            CodeExtractor.dictGet]
        · simp [CodeExtractor.dictGet_dictSet_ne, CodeExtractor.dictGet_dictSet_eq,
            CodeExtractor.dictGet]
        · simp [CodeExtractor.dictGet_dictSet_ne, CodeExtractor.dictGet_dictSet_eq]
        · intro hgeo _
          exfalso
          have hg : s.toList.head? = some 'g' :=
            CodeExtractor.head_some_of_pyStartsWith hgeo (by decide)
          have hm : s.toList.head? = some 'm' :=
            CodeExtractor.head_some_of_pyStartsWith h4 (by decide)
          exact absurd (hm.symm.trans hg) (by decide)
      · rw [if_neg h4]
        by_cases h5 : PyStr.pyStartsWith s "tel:" = true
        · rw [if_pos h5]
          refine ⟨?_, ?_, ⟨"phone", ?_, by decide⟩, ?_⟩
          · simp [CodeExtractor.dictGet_dictSet_ne, CodeExtractor.dictGet_dictSet_eq,
              CodeExtractor.dictGet]
          · simp [CodeExtractor.dictGet_dictSet_ne, CodeExtractor.dictGet_dictSet_eq,
              CodeExtractor.dictGet]
          · simp [CodeExtractor.dictGet_dictSet_ne, CodeExtractor.dictGet_dictSet_eq]
          · intro hgeo _
            exfalso
            have hg : s.toList.head? = some 'g' :=
              CodeExtractor.head_some_of_pyStartsWith hgeo (by decide)
            have ht : s.toList.head? = some 't' :=
              CodeExtractor.head_some_of_pyStartsWith h5 (by decide)
            exact absurd (ht.symm.trans hg) (by decide)
        · rw [if_neg h5]
          by_cases h6 : PyStr.pyStartsWith s "sms:" = true
          · rw [if_pos h6]
            refine ⟨?_, ?_, ⟨"sms", ?_, by decide⟩, ?_⟩
            · simp [CodeExtractor.dictGet_dictSet_ne, CodeExtractor.dictGet_dictSet_eq,
                CodeExtractor.dictGet]
            · simp [CodeExtractor.dictGet_dictSet_ne, CodeExtractor.dictGet_dictSet_eq,
                CodeExtractor.dictGet]
            · simp [CodeExtractor.dictGet_dictSet_ne, CodeExtractor.dictGet_dictSet_eq]
            · intro hgeo _
              exfalso
              have hg : s.toList.head? = some 'g' :=
                CodeExtractor.head_some_of_pyStartsWith hgeo (by decide)
              have hs : s.toList.head? = some 's' :=
                CodeExtractor.head_some_of_pyStartsWith h6 (by decide)
              exact absurd (hs.symm.trans hg) (by decide)
          · rw [if_neg h6]
            by_cases h7 : PyStr.pyStartsWith s "geo:" = true
            · rw [if_pos h7]
              cases hc : PyStr.pySplitChar ',' (PyStr.pyDrop s 4) with
              | nil =>
                refine ⟨?_, ?_, ⟨"location", ?_, by decide⟩, fun _ _ => ⟨?_, ?_, ?_⟩⟩ <;>
                  simp [CodeExtractor.dictGet_dictSet_ne,
                    CodeExtractor.dictGet_dictSet_eq, CodeExtractor.dictGet]
              | cons c0 rest =>
                cases rest with
                | nil =>
                  refine ⟨?_, ?_, ⟨"location", ?_, by decide⟩, fun _ _ => ⟨?_, ?_, ?_⟩⟩ <;>
                    simp [CodeExtractor.dictGet_dictSet_ne,
                      CodeExtractor.dictGet_dictSet_eq, CodeExtractor.dictGet]
                | cons c1 rest2 =>
                  by_cases hf0 : env.floatParses c0 = true
                  · by_cases hf1 : env.floatParses c1 = true
                    · refine ⟨?_, ?_, ⟨"location", ?_, by decide⟩, ?_⟩
                      · simp [hf0, hf1, CodeExtractor.dictGet_dictSet_ne,
                          CodeExtractor.dictGet_dictSet_eq, CodeExtractor.dictGet]
                      · simp [hf0, hf1, CodeExtractor.dictGet_dictSet_ne,
                          CodeExtractor.dictGet_dictSet_eq, CodeExtractor.dictGet]
                      · simp [hf0, hf1, CodeExtractor.dictGet_dictSet_ne,
                          CodeExtractor.dictGet_dictSet_eq, CodeExtractor.dictGet]
                      · intro _ hfl
                        simp only [List.headD_cons] at hfl
                        exact absurd hf0 (by simp [hfl])
                    · refine ⟨?_, ?_, ⟨"location", ?_, by decide⟩, ?_⟩
                      · simp [hf0, hf1, CodeExtractor.dictGet_dictSet_ne,
                          CodeExtractor.dictGet_dictSet_eq, CodeExtractor.dictGet]
                      · simp [hf0, hf1, CodeExtractor.dictGet_dictSet_ne,
                          CodeExtractor.dictGet_dictSet_eq, CodeExtractor.dictGet]
                      · simp [hf0, hf1, CodeExtractor.dictGet_dictSet_ne,
                          CodeExtractor.dictGet_dictSet_eq, CodeExtractor.dictGet]
                      · intro _ hfl
                        simp only [List.headD_cons] at hfl
                        exact absurd hf0 (by simp [hfl])
                  · refine ⟨?_, ?_, ⟨"location", ?_, by decide⟩, fun _ _ => ⟨?_, ?_, ?_⟩⟩ <;>
                      simp [hf0, CodeExtractor.dictGet_dictSet_ne,
                        CodeExtractor.dictGet_dictSet_eq, CodeExtractor.dictGet]
            · rw [if_neg h7]
              by_cases hj : env.jsonValid s = true
              · rw [if_pos hj]
                refine ⟨?_, ?_, ⟨"json", ?_, by decide⟩, fun hgeo _ => absurd hgeo h7⟩ <;>
                  simp [CodeExtractor.dictGet_dictSet_ne,
                    CodeExtractor.dictGet_dictSet_eq, CodeExtractor.dictGet]
              · rw [if_neg hj]
                refine ⟨?_, ?_, ⟨"text", ?_, by decide⟩, fun hgeo _ => absurd hgeo h7⟩ <;>
                  simp [CodeExtractor.dictGet_dictSet_ne,
                    CodeExtractor.dictGet_dictSet_eq, CodeExtractor.dictGet]

/-- C10 witness: the malformed geo payload `geo:abc,def` under oracles
where `float()` always fails keeps its content and is classified
`location` with latitude omitted. -/
theorem claim_C10_witness :
    CodeExtractor.dictGet (CodeExtractor.extract_qr_info envNone "geo:abc,def")
      "content" = some (.str "geo:abc,def")
    ∧ CodeExtractor.dictGet (CodeExtractor.extract_qr_info envNone "geo:abc,def")
      "latitude" = none
    ∧ CodeExtractor.dictGet (CodeExtractor.extract_qr_info envNone "geo:abc,def")
      "type" = some (.str "location") := by
  have h := claim_C10_amended envNone "geo:abc,def" (by decide)
  have hg := h.2.2.2 (by decide) (by decide)
  exact ⟨h.1, hg.1, hg.2.2⟩
